import Mathlib

/-!
# velero-plugin-artifactory: the object-store adapter

A shallow embedding of `internal/plugin/objectstoreplugin.go`.

* A Go `string` is an immutable sequence of bytes; it is embedded as `List UInt8`.
  `len(s)` is `List.length`, `s[n:]` is `List.drop` (guarded by the bounds check
  Go performs), `fmt.Sprintf` with `%s` verbs is concatenation.
* A Go function that can return an `error` or abort with a run-time panic returns
  an `Outcome`.
* The JFrog client (`ArtifactoryServicesManager`), `net/url.Parse`, the process
  environment and the operating-system calls are external collaborators.  They are
  passed in as records of functions, so every statement below holds for all of them.
* Logging has no effect on results and is left out.
-/

namespace VeleroArtifactory

/-! ## Go values -/

/-- A Go string: a sequence of bytes. -/
abbrev GoString := List UInt8

/-- An ASCII string literal as a Go string. -/
def lit (s : String) : GoString := s.toList.map (fun c => UInt8.ofNat c.toNat)

/-- The Go `error` values that the adapter can return. -/
inductive GoError where
  /-- `strconv.ParseBool` rejected the text. -/
  | parseBool (text : GoString)
  /-- `strconv.Atoi` rejected the text (bad syntax or out of range). -/
  | atoi (text : GoString)
  /-- `os.Open`: no file at the path. -/
  | notExist (path : GoString)
  /-- An error produced by an external collaborator. -/
  | external (code : Nat)
deriving DecidableEq, Repr

/-- Run-time panics of the Go runtime. -/
inductive GoPanic where
  /-- `s[lo:]` with `lo > len(s)`. -/
  | sliceBoundsOutOfRange (lo len : Nat)
  /-- `a[i]` with `i >= len(a)`. -/
  | indexOutOfRange (i len : Nat)
  /-- A method call on a nil interface value. -/
  | nilDereference
deriving DecidableEq, Repr

/-- What a call does: returns a value, returns a non-nil `error`, or panics. -/
inductive Outcome (α : Type) where
  | ok (a : α)
  | error (e : GoError)
  | panic (p : GoPanic)
deriving DecidableEq, Repr

/-! ## Package `strings` -/

/-- `strings.HasPrefix(s, pre)`. -/
def HasPrefix (s pre : GoString) : Bool := pre.isPrefixOf s

/-- `strings.Index(s, sep)`: the offset of the first occurrence of `sep` in `s`
(`none` for Go's `-1`). -/
def Index : GoString → GoString → Option Nat
  | [], sep => if sep = [] then some 0 else none
  | c :: s, sep => if HasPrefix (c :: s) sep then some 0 else (Index s sep).map (· + 1)

/-- The loop of `strings.genSplit` for a non-empty separator: cut at each successive
occurrence of `sep`.  The counter bounds the number of cuts (Go uses
`strings.Count(s, sep)`, the loop also stops as soon as `Index` finds nothing). -/
def genSplit (sep : GoString) : Nat → GoString → List GoString
  | 0, s => [s]
  | n + 1, s =>
    match Index s sep with
    | none => [s]
    | some m => s.take m :: genSplit sep n (s.drop (m + sep.length))

/-- Continuation byte of a UTF-8 sequence (`locb <= b <= hicb`). -/
def isCont (b : UInt8) : Bool := 0x80 ≤ b.toNat && b.toNat ≤ 0xBF

/-- The checks of `utf8.DecodeRuneInString` after the lead byte, which announced a
sequence of `sz` bytes and the range `lo..hi` for the second byte: the size of the
sequence when the bytes of `rest` complete it, `1` otherwise. -/
def runeSizeTail (sz lo hi : Nat) (rest : GoString) : Nat :=
  if rest.length + 1 < sz then 1
  else
    match rest with
    | [] => 1
    | s1 :: rest1 =>
      if s1.toNat < lo ∨ hi < s1.toNat then 1
      else if sz ≤ 2 then 2
      else
        match rest1 with
        | [] => 1
        | s2 :: rest2 =>
          if !isCont s2 then 1
          else if sz ≤ 3 then 3
          else
            match rest2 with
            | [] => 1
            | s3 :: _ => if !isCont s3 then 1 else 4

/-- The `size` returned by `utf8.DecodeRuneInString(s)`: the width of the first
rune, `1` for an invalid encoding, `0` for the empty string.  The lead bytes
`0xC2..0xF4` announce 2, 3 or 4 bytes and the accepted range of the second one
(the tables `first` and `acceptRanges`). -/
def runeSize : GoString → Nat
  | [] => 0
  | s0 :: rest =>
    if s0.toNat < 0xC2 ∨ 0xF4 < s0.toNat then 1
    else
      runeSizeTail
        (if s0.toNat < 0xE0 then 2 else if s0.toNat < 0xF0 then 3 else 4)
        (if s0.toNat = 0xE0 then 0xA0 else if s0.toNat = 0xF0 then 0x90 else 0x80)
        (if s0.toNat = 0xED then 0x9F else if s0.toNat = 0xF4 then 0x8F else 0xBF)
        rest

/-- `strings.explode(s, -1)`: one string per UTF-8 sequence of `s`; the counter
bounds the number of pieces. -/
def explode : Nat → GoString → List GoString
  | 0, _ => []
  | n + 1, s => if s = [] then [] else s.take (runeSize s) :: explode n (s.drop (runeSize s))

/-- `strings.Split(s, sep)`. -/
def Split (s sep : GoString) : List GoString :=
  if sep = [] then explode s.length s else genSplit sep s.length s

/-- `strings.TrimLeft(s, cutset)` for a cutset of ASCII bytes. -/
def TrimLeft (s cutset : GoString) : GoString := s.dropWhile (fun c => decide (c ∈ cutset))

/-- `strings.TrimRight(s, cutset)` for a cutset of ASCII bytes. -/
def TrimRight (s cutset : GoString) : GoString :=
  (s.reverse.dropWhile (fun c => decide (c ∈ cutset))).reverse

/-- `strings.Trim(s, cutset)` for a cutset of ASCII bytes (the adapter only uses `"/"`). -/
def Trim (s cutset : GoString) : GoString := TrimLeft (TrimRight s cutset) cutset

/-! ## The listing algorithm -/

/-- The fields of `utils.ResultItem` that the adapter reads. -/
structure ResultItem where
  Repo : GoString
  Path : GoString
  Name : GoString
deriving DecidableEq, Repr

/-- The fields of `services.SearchParams` that the adapter sets. -/
structure SearchParams where
  Pattern : GoString
  Props : GoString
  Recursive : Bool
deriving DecidableEq, Repr

/-- `artifact := fmt.Sprintf("%s/%s/%s", currentResult.Repo, currentResult.Path, currentResult.Name)`. -/
def artifactOf (r : ResultItem) : GoString :=
  r.Repo ++ lit "/" ++ r.Path ++ lit "/" ++ r.Name

/-- `beginningS := fmt.Sprintf("%s/%s", bucket, prefix)`. -/
def beginningS (bucket pfx : GoString) : GoString := bucket ++ lit "/" ++ pfx

/-- The body of the result loop of `ListCommonPrefixes` up to the assignment of
`object`: slice the identity, split, take the first piece. -/
def objectOf (bucket pfx delimiter : GoString) (r : ResultItem) : Except GoPanic GoString :=
  let artifact := artifactOf r
  let b := beginningS bucket pfx
  -- subKey := artifact[len(beginningS):]
  if artifact.length < b.length then
    .error (.sliceBoundsOutOfRange b.length artifact.length)
  else
    let subKey := artifact.drop b.length
    -- delimited := strings.Split(subKey, delimiter); delimited[0]
    match Split subKey delimiter with
    | [] => .error (.indexOutOfRange 0 0)
    | d0 :: _ => .ok (pfx ++ d0 ++ delimiter)

/-- The result loop of `ListCommonPrefixes`: `records` are the records the reader
yields before `NextRecord` returns a non-nil error, `objectsList` the slice built so far. -/
def listLoop (bucket pfx delimiter : GoString) :
    List ResultItem → List GoString → Outcome (List GoString)
  | [], objectsList => .ok objectsList
  | r :: records, objectsList =>
    match objectOf bucket pfx delimiter r with
    | .error p => .panic p
    | .ok object =>
      -- append only if not exists
      if object ∈ objectsList then listLoop bucket pfx delimiter records objectsList
      else listLoop bucket pfx delimiter records (objectsList ++ [object])

/-! ## Package `path/filepath` (Unix) -/

/-- The element pass of `filepath.Clean`: drops empty and `.` elements, lets `..`
remove the element before it, and drops `..` at the root of a rooted path.
`stack` holds the kept elements, last one first. -/
def cleanElems (rooted : Bool) : List GoString → List GoString → List GoString
  | [], stack => stack.reverse
  | e :: es, stack =>
    if e = [] ∨ e = lit "." then cleanElems rooted es stack
    else if e = lit ".." then
      match stack with
      | top :: below =>
        if top = lit ".." then cleanElems rooted es (e :: stack)
        else cleanElems rooted es below
      | [] => if rooted then cleanElems rooted es [] else cleanElems rooted es [e]
    else cleanElems rooted es (e :: stack)

/-- `filepath.Clean(path)`. -/
def Clean (path : GoString) : GoString :=
  let rooted := HasPrefix path (lit "/")
  let out := (if rooted then lit "/" else []) ++
    (lit "/").intercalate (cleanElems rooted (Split path (lit "/")) [])
  if out = [] then lit "." else out

/-- `filepath.Join(elem...)`: the elements from the first non-empty one on, joined
with `/` and cleaned; the empty string when there is none. -/
def Join (elem : List GoString) : GoString :=
  match elem.dropWhile (fun e => decide (e = [])) with
  | [] => []
  | rest => Clean ((lit "/").intercalate rest)

/-- `filepath.Dir(path)`: the path up to and including its last `/`, cleaned. -/
def Dir (path : GoString) : GoString :=
  Clean (path.reverse.dropWhile (fun c => decide (c ≠ 47))).reverse

/-- `const defaultRoot = "/tmp/backups"`. -/
def defaultRoot : GoString := lit "/tmp/backups"

/-! ## Package `strconv` -/

/-- `strconv.ParseBool(str)`. -/
def ParseBool (str : GoString) : Except GoError Bool :=
  if str ∈ [lit "1", lit "t", lit "T", lit "TRUE", lit "true", lit "True"] then .ok true
  else if str ∈ [lit "0", lit "f", lit "F", lit "FALSE", lit "false", lit "False"] then .ok false
  else .error (.parseBool str)

/-- An ASCII decimal digit. -/
def isDigit (c : UInt8) : Bool := 48 ≤ c.toNat && c.toNat ≤ 57

/-- The number written by a string of decimal digits. -/
def digitsValue (ds : GoString) : Nat := ds.foldl (fun n c => n * 10 + (c.toNat - 48)) 0

/-- `strconv.Atoi(s)` with a 64-bit `int`: an optional sign, then one or more decimal
digits, and the value must fit in `int64`. -/
def Atoi (s : GoString) : Except GoError Int :=
  let digits := if s.head? = some 45 ∨ s.head? = some 43 then s.tail else s
  if digits = [] ∨ digits.all isDigit = false then .error (.atoi s)
  else if s.head? = some 45 then
    if digitsValue digits ≤ 2 ^ 63 then .ok (-(digitsValue digits : Int)) else .error (.atoi s)
  else
    if digitsValue digits < 2 ^ 63 then .ok (digitsValue digits : Int) else .error (.atoi s)

/-! ## Package `time` -/

/-- Two's-complement wrap-around of `int64` arithmetic. -/
def wrapInt64 (x : Int) : Int := (x + 2 ^ 63) % 2 ^ 64 - 2 ^ 63

/-- `time.Second`, in nanoseconds (a `time.Duration` is an `int64` count of nanoseconds). -/
def Second : Int := 1000000000

/-- `time.Minute`. -/
def Minute : Int := 60 * Second

/-- `time.Duration(n) * time.Second`. -/
def secondsDuration (n : Int) : Int := wrapInt64 (n * Second)

/-! ## Package `net/url` -/

/-- The fields of `url.URL` that the adapter reads. -/
structure URL where
  Scheme : GoString
  Host : GoString
  Path : GoString
deriving DecidableEq, Repr

/-- `url.shouldEscape(c, encodeQueryComponent)`: everything is escaped except ASCII
letters, digits and `-`, `_`, `.`, `~`. -/
def shouldEscape (c : UInt8) : Bool :=
  if (97 ≤ c.toNat ∧ c.toNat ≤ 122) ∨ (65 ≤ c.toNat ∧ c.toNat ≤ 90) ∨
      (48 ≤ c.toNat ∧ c.toNat ≤ 57) then false
  else if c ∈ lit "-_.~" then false
  else true

/-- `const upperhex = "0123456789ABCDEF"`. -/
def upperhex : GoString := lit "0123456789ABCDEF"

/-- `url.QueryEscape(s)`: a space becomes `+`, any other escaped byte `%XX`. -/
def QueryEscape (s : GoString) : GoString :=
  s.flatMap fun c =>
    if shouldEscape c then
      if c = 32 then [43]
      else [37, upperhex.getD (c.toNat / 16) 0, upperhex.getD (c.toNat % 16) 0]
    else [c]

/-! ## The JFrog client, as seen by the adapter -/

/-- The connection descriptor (`auth.ServiceDetails`), by its getters. -/
structure ServiceDetails where
  Url : GoString
  User : GoString
  Password : GoString
  ApiKey : GoString
  AccessToken : GoString
  SshKeyPath : GoString
  ClientCertPath : GoString
  ClientCertKeyPath : GoString
deriving DecidableEq, Repr

/-- What `Init` hands to the configuration builder (`articonfig.NewConfigBuilder()`).
The two timeouts are `time.Duration` values. -/
structure ServiceConfig where
  ServiceDetails : ServiceDetails
  DryRun : Bool
  CertificatesPath : GoString
  Threads : Int
  DialTimeout : Int
  OverallRequestTimeout : Int
  HttpRetries : Int
deriving DecidableEq, Repr

/-- The set properties of `utils.Properties`: the `AddProperty(key, value)` calls, in order. -/
abbrev Properties := List (GoString × GoString)

/-- The fields of `services.UploadParams` that `PutObject` sets. -/
structure UploadParams where
  Pattern : GoString
  Target : GoString
  AddVcsProps : Bool
  Recursive : Bool
  Regexp : Bool
  IncludeDirs : Bool
  Flat : Bool
  ExplodeArchive : Bool
  TargetProps : Option Properties
deriving DecidableEq, Repr

/-- The fields of `services.DownloadParams` that `GetObject` sets. -/
structure DownloadParams where
  Pattern : GoString
  Target : GoString
  Props : GoString
  Flat : Bool
deriving DecidableEq, Repr

/-- The fields of `services.DeleteParams` that `DeleteObject` sets. -/
structure DeleteParams where
  Pattern : GoString
  Props : GoString
  Recursive : Bool
deriving DecidableEq, Repr

/-- The local files: path and content. -/
abbrev FileSystem := List (GoString × GoString)

/-- A `content.ContentReader`: the records `NextRecord` yields before its first
non-nil error, and what `Length()` returns. -/
structure ContentReader where
  records : List ResultItem
  Length : Except GoError Nat

/-- The operations of `artifactory.ArtifactoryServicesManager` that the adapter calls.
`DownloadFiles` also returns the local files as the download leaves them. -/
structure ServicesManager where
  GetConfig : ServiceConfig
  SearchFiles : SearchParams → Except GoError ContentReader
  UploadFiles : Bool → UploadParams → Except GoError (Int × Int)
  DownloadFiles : DownloadParams → FileSystem → Except GoError (Int × Int) × FileSystem
  GetPathsToDelete : DeleteParams → Except GoError ContentReader
  DeleteFiles : ContentReader → Except GoError Int

/-- The entry points of the JFrog client used by `Init`: the configuration builder's
`Build()` and `artifactory.New`, which returns a manager and an error. -/
structure Library where
  Build : ServiceConfig → Except GoError ServiceConfig
  New : ServiceConfig → Option ServicesManager × Option GoError

/-- The outcomes of the operating-system calls `PutObject` makes while staging:
`os.MkdirAll(dir, 0755)`, `os.Create(path)`, `io.Copy(file, body)`. -/
structure Staging where
  MkdirAll : GoString → Option GoError
  Create : GoString → Option GoError
  Copy : GoString → GoString → Option GoError

/-- The adapter (`type ObjectStore struct`); `rtManager` is nil until `Init` succeeds. -/
structure ObjectStore where
  rtManager : Option ServicesManager
  labels : GoString

/-- A configuration map; an absent key reads as the empty string. -/
abbrev Config := List (GoString × GoString)

/-- The map read `config[key]`. -/
def Config.get (config : Config) (key : GoString) : GoString := (config.lookup key).getD []

/-! ## `Init` -/

/-- The resilience settings resolved by `Init` (its local variables). -/
structure Resilience where
  dry_run : Bool
  threads : Int
  dial_timeout : Int
  request_timeout : Int
  retries : Int
deriving DecidableEq, Repr

/-- The block of `Init` under `// set default values`: each key is parsed when it
is non-empty, and the first parse error is returned. -/
def resolveResilience (config : Config) : Except GoError Resilience := do
  let dry_run ←
    (if config.get (lit "dry_run") ≠ [] then ParseBool (config.get (lit "dry_run"))
    else pure false)
  let threads ←
    (if config.get (lit "threads") ≠ [] then Atoi (config.get (lit "threads"))
    else pure 3)
  let dial_timeout ←
    (if config.get (lit "dial_timeout") ≠ [] then
      (Atoi (config.get (lit "dial_timeout"))).map secondsDuration
    else pure (30 * Second))
  let request_timeout ←
    (if config.get (lit "request_timeout") ≠ [] then
      (Atoi (config.get (lit "request_timeout"))).map secondsDuration
    else pure (10 * Minute))
  let retries ←
    (if config.get (lit "retries") ≠ [] then Atoi (config.get (lit "retries"))
    else pure 3)
  pure { dry_run, threads, dial_timeout, request_timeout, retries }

/-- `utils.AddTrailingSlashIfNeeded(url)` of the JFrog client, which `SetUrl` applies:
a non-empty URL that does not end in `/` gets one. -/
def AddTrailingSlashIfNeeded (url : GoString) : GoString :=
  if url ≠ [] ∧ (lit "/").isSuffixOf url = false then url ++ lit "/" else url

/-- The connection descriptor `Init` fills from the configuration and the environment,
as its getters return it (`SetUrl` stores the URL with a trailing `/`). -/
def initDetails (getenv : GoString → GoString) (config : Config) : ServiceDetails :=
  { Url := AddTrailingSlashIfNeeded (config.get (lit "url"))
    User := config.get (lit "user")
    Password := getenv (lit "ARTIFACTORY_PASSWORD")
    ApiKey := getenv (lit "ARTIFACTORY_API_KEY")
    AccessToken := getenv (lit "ARTIFACTORY_ACCESS_TOKEN")
    SshKeyPath := getenv (lit "ARTIFACTORY_SSH_KEY_PATH")
    ClientCertPath := getenv (lit "ARTIFACTORY_CLIENT_CERT_PATH")
    ClientCertKeyPath := getenv (lit "ARTIFACTORY_CLIENT_CERT_KEY_PATH") }

/-- `ObjectStore.Init`: returns the error (nil when `none`) and the updated store. -/
def Init (lib : Library) (getenv : GoString → GoString) (f : ObjectStore) (config : Config) :
    Option GoError × ObjectStore :=
  -- setup labels
  let f : ObjectStore := { f with labels := config.get (lit "labels") }
  match resolveResilience config with
  | .error err => (some err, f)
  | .ok s =>
    match lib.Build
        { ServiceDetails := initDetails getenv config
          DryRun := s.dry_run
          CertificatesPath := getenv (lit "ARTIFACTORY_CLIENT_CERT_PATH")
          Threads := s.threads
          DialTimeout := s.dial_timeout
          OverallRequestTimeout := s.request_timeout
          HttpRetries := s.retries } with
    | .error err => (some err, f)
    | .ok serviceConfig =>
      -- f.rtManager, err = artifactory.New(serviceConfig)
      ((lib.New serviceConfig).2, { f with rtManager := (lib.New serviceConfig).1 })

/-! ## The object-store operations -/

/-- The label loop of `PutObject`: `label_kv := strings.Split(label, "=")`, then
`targetProps.AddProperty(label_kv[0], label_kv[1])`. -/
def addLabels : List GoString → Properties → Except GoPanic Properties
  | [], targetProps => .ok targetProps
  | label :: labels, targetProps =>
    match Split label (lit "=") with
    | k :: v :: _ => addLabels labels (targetProps ++ [(k, v)])
    | [_] => .error (.indexOutOfRange 1 1)
    | [] => .error (.indexOutOfRange 0 0)

/-- The upload parameters `PutObject` builds, without the target properties. -/
def uploadParams (path bucket key : GoString) : UploadParams :=
  { Pattern := path
    Target := bucket ++ lit "/" ++ key
    AddVcsProps := false
    Recursive := true
    Regexp := false
    IncludeDirs := false
    Flat := true
    ExplodeArchive := false
    TargetProps := none }

/-- The call `f.rtManager.UploadFiles(uploadServiceOptions, params)` that ends
`PutObject`, with `FailFast: false`. -/
def putUpload (f : ObjectStore) (params : UploadParams) : Outcome Unit :=
  match f.rtManager with
  | none => .panic .nilDereference
  | some m =>
    match m.UploadFiles false params with
    | .error err => .error err
    | .ok _ => .ok ()

/-- `ObjectStore.PutObject`. -/
def PutObject (f : ObjectStore) (os : Staging) (bucket key body : GoString) : Outcome Unit :=
  let path := Join [defaultRoot, bucket, key]
  match os.MkdirAll (Dir path) with
  | some err => .error err
  | none =>
    match os.Create path with
    | some err => .error err
    | none =>
      match os.Copy path body with
      | some err => .error err
      | none =>
        if f.labels ≠ [] then
          match addLabels (Split f.labels (lit ";")) [] with
          | .error p => .panic p
          | .ok targetProps =>
            putUpload f { uploadParams path bucket key with TargetProps := some targetProps }
        else putUpload f (uploadParams path bucket key)

/-- The search parameters `ObjectExists` builds. -/
def existsParams (f : ObjectStore) (bucket key : GoString) : SearchParams :=
  { Pattern := bucket ++ lit "/" ++ key, Props := f.labels, Recursive := true }

/-- `ObjectStore.ObjectExists`. -/
def ObjectExists (f : ObjectStore) (bucket key : GoString) : Outcome Bool :=
  match f.rtManager with
  | none => .panic .nilDereference
  | some m =>
    match m.SearchFiles (existsParams f bucket key) with
    | .error err => .error err
    | .ok reader =>
      match reader.Length with
      | .error err => .error err
      | .ok length => if length = 0 then .ok false else .ok true

/-- The download parameters `GetObject` builds. -/
def downloadParams (f : ObjectStore) (bucket key : GoString) : DownloadParams :=
  { Pattern := bucket ++ lit "/" ++ Trim key (lit "/")
    Target := Join [defaultRoot, bucket, key]
    Props := f.labels
    Flat := true }

/-- `os.Open(path)` on a path that is a regular file or does not exist, returning the
content of the file as the stream (`FileSystem` holds regular files only; opening a
directory is not modelled). -/
def osOpen (fs : FileSystem) (path : GoString) : Outcome GoString :=
  match fs.lookup path with
  | some content => .ok content
  | none => .error (.notExist path)

/-- `ObjectStore.GetObject`, on the local files `fs`. -/
def GetObject (f : ObjectStore) (fs : FileSystem) (bucket key : GoString) : Outcome GoString :=
  match f.rtManager with
  | none => .panic .nilDereference
  | some m =>
    match m.DownloadFiles (downloadParams f bucket key) fs with
    | (.error err, _) => .error err
    | (.ok _, fs1) =>
      -- verify this
      osOpen fs1 (Join [defaultRoot, bucket, key])

/-- The search parameters `ListCommonPrefixes` builds. -/
def listParams (f : ObjectStore) (bucket pfx : GoString) : SearchParams :=
  { Pattern := bucket ++ lit "/" ++ pfx ++ lit "*", Props := f.labels, Recursive := true }

/-- `ObjectStore.ListCommonPrefixes`. -/
def ListCommonPrefixes (f : ObjectStore) (bucket pfx delimiter : GoString) :
    Outcome (List GoString) :=
  match f.rtManager with
  | none => .panic .nilDereference
  | some m =>
    match m.SearchFiles (listParams f bucket pfx) with
    | .error err => .error err
    | .ok reader => listLoop bucket pfx delimiter reader.records []

/-- `ObjectStore.ListObjects`. -/
def ListObjects (f : ObjectStore) (bucket pfx : GoString) : Outcome (List GoString) :=
  match ListCommonPrefixes f bucket pfx (lit "/") with
  | .error err => .error err
  | .panic p => .panic p
  | .ok objects => .ok objects

/-- The delete parameters `DeleteObject` builds. -/
def deleteParams (f : ObjectStore) (bucket key : GoString) : DeleteParams :=
  { Pattern := bucket ++ lit "/" ++ Trim key (lit "/"), Props := f.labels, Recursive := true }

/-- `ObjectStore.DeleteObject`. -/
def DeleteObject (f : ObjectStore) (bucket key : GoString) : Outcome Unit :=
  match f.rtManager with
  | none => .panic .nilDereference
  | some m =>
    match m.GetPathsToDelete (deleteParams f bucket key) with
    | .error err => .error err
    | .ok pathsToDelete =>
      match m.DeleteFiles pathsToDelete with
      | .error err => .error err
      | .ok _ => .ok ()

/-- `ObjectStore.CreateSignedURL`; `urlParse` is `url.Parse`. -/
def CreateSignedURL (f : ObjectStore) (urlParse : GoString → Except GoError URL)
    (bucket key : GoString) (_ttl : Int) : Outcome GoString :=
  match f.rtManager with
  | none => .panic .nilDereference
  | some m =>
    let jconfig := m.GetConfig.ServiceDetails
    let cred : GoString := []
    let cred := if jconfig.Password ≠ [] then jconfig.Password else cred
    let cred := if jconfig.ApiKey ≠ [] then jconfig.ApiKey else cred
    let cred := if jconfig.AccessToken ≠ [] then jconfig.AccessToken else cred
    match urlParse jconfig.Url with
    | .error err => .error err
    | .ok u =>
      .ok (lit "https://" ++ QueryEscape jconfig.User ++ lit ":" ++ QueryEscape cred ++
        lit "@" ++ u.Host ++ u.Path ++ bucket ++ lit "/" ++ key)

/-! ## Vocabulary of the specification -/

/-- The text `seg` is what `sub` has before its first occurrence of `delim`, or the
whole of `sub` when `delim` does not occur in it. -/
def IsFirstSegment (delim sub seg : GoString) : Prop :=
  (¬ delim <:+: sub ∧ seg = sub) ∨
  (∃ rest, sub = seg ++ delim ++ rest ∧ ∀ a b, sub = a ++ delim ++ b → seg.length ≤ a.length)

/-- In the list `cands` of produced strings, the first producer of `x` comes before
every producer of `y`: `x` occurs, `y` is another string, and `y` does not occur
before the first occurrence of `x`. -/
def ProducedBefore (cands : List GoString) (x y : GoString) : Prop :=
  ∃ p q, cands = p ++ x :: q ∧ x ∉ p ∧ y ∉ p ∧ y ≠ x

/-- The setting read from the text `raw` resolves to `value`: the default `dflt` when
the key is absent or empty, the parsed value when the text parses. -/
def Resolves {α : Type} (raw : GoString) (parse : GoString → Except GoError α) (dflt : α)
    (value : α) : Prop :=
  (raw = [] ∧ value = dflt) ∨ (raw ≠ [] ∧ parse raw = .ok value)

/-- The text `raw` is present, non-empty and not parseable by `parse`. -/
def Unparsable {α : Type} (raw : GoString) (parse : GoString → Except GoError α) : Prop :=
  raw ≠ [] ∧ ∀ v, parse raw ≠ .ok v

/-- The first non-empty string of a list; the empty string when there is none. -/
def firstNonEmpty : List GoString → GoString
  | [] => []
  | s :: rest => if s ≠ [] then s else firstNonEmpty rest

/-- The unreserved characters of a URL (RFC 3986, section 2.3): letters, digits and
`-`, `.`, `_`, `~`. -/
def unreservedChars : GoString :=
  lit "ABCDEFGHIJKLMNOPQRSTUVWXYZabcdefghijklmnopqrstuvwxyz0123456789-._~"

/-- The signed URL as the specification words it:
`scheme + "://" + user + ":" + credential + "@" + host + path + "/" + bucket + "/" + key`. -/
def specSignedURL (u : URL) (user credential bucket key : GoString) : GoString :=
  u.Scheme ++ lit "://" ++ user ++ lit ":" ++ credential ++ lit "@" ++ u.Host ++ u.Path ++
    lit "/" ++ bucket ++ lit "/" ++ key

/-! ## A fake backend for the fixtures -/

/-- A search of the fake backend: a pattern ending in `*` selects the stored items
whose identity starts with the text before the `*`, any other pattern the items
whose identity is the pattern. -/
def fakeSearch (stored : List ResultItem) (pattern : GoString) : ContentReader :=
  let found := stored.filter fun r =>
    if pattern.getLast? = some 42 then HasPrefix (artifactOf r) pattern.dropLast
    else decide (artifactOf r = pattern)
  { records := found, Length := .ok found.length }

/-- A fake services manager over a fixed list of stored items; uploads and
downloads transfer nothing and leave the local files as they are. -/
def fakeManager (details : ServiceDetails) (stored : List ResultItem) : ServicesManager :=
  { GetConfig :=
      { ServiceDetails := details, DryRun := false, CertificatesPath := [], Threads := 3,
        DialTimeout := 30 * Second, OverallRequestTimeout := 10 * Minute, HttpRetries := 3 }
    SearchFiles := fun params => .ok (fakeSearch stored params.Pattern)
    UploadFiles := fun _ _ => .ok (0, 0)
    DownloadFiles := fun _ fs => (.ok (0, 0), fs)
    GetPathsToDelete := fun params => .ok (fakeSearch stored params.Pattern)
    DeleteFiles := fun _ => .ok 0 }

/-- A services manager whose searches all return `reader`, whatever the pattern: a
backend that is not bound to answer the pattern it was asked. -/
def stubManager (reader : ContentReader) : ServicesManager :=
  { fakeManager
      { Url := [], User := [], Password := [], ApiKey := [], AccessToken := [],
        SshKeyPath := [], ClientCertPath := [], ClientCertKeyPath := [] } [] with
    SearchFiles := fun _ => .ok reader }

/-- An initialised store over `stubManager`. -/
def stubStore (records : List ResultItem) : ObjectStore :=
  { rtManager := some (stubManager { records := records, Length := .ok records.length })
    labels := [] }

/-- Connection descriptor of the fixtures. -/
def fixtureDetails (url password apiKey accessToken : GoString) : ServiceDetails :=
  { Url := url, User := lit "u", Password := password, ApiKey := apiKey,
    AccessToken := accessToken, SshKeyPath := [], ClientCertPath := [], ClientCertKeyPath := [] }

/-- The stored object with key `path/name` in repository `repo`. -/
def item (repo path name : String) : ResultItem :=
  { Repo := lit repo, Path := lit path, Name := lit name }

/-- An initialised store over the fake backend holding `stored`. -/
def fixtureStore (stored : List ResultItem) : ObjectStore :=
  { rtManager := some (fakeManager (fixtureDetails (lit "https://h/") [] [] []) stored)
    labels := [] }

/-- The keys `x/1/a`, `x/1/b`, `x/2/c`, `y/3/d` of bucket `bkt`. -/
def fixtureKeys : List ResultItem :=
  [item "bkt" "x/1" "a", item "bkt" "x/1" "b", item "bkt" "x/2" "c", item "bkt" "y/3" "d"]

/-- An initialised store whose connection descriptor has user `u` and the given
endpoint and credentials. -/
def credStore (url password apiKey accessToken : GoString) : ObjectStore :=
  { rtManager := some (fakeManager (fixtureDetails url password apiKey accessToken) [])
    labels := [] }

/-- What `url.Parse` returns on the endpoints of the fixtures. -/
def fixtureParse (rawURL : GoString) : Except GoError URL :=
  if rawURL = lit "https://h/" then
    .ok { Scheme := lit "https", Host := lit "h", Path := lit "/" }
  else if rawURL = lit "http://h/artifactory/" then
    .ok { Scheme := lit "http", Host := lit "h", Path := lit "/artifactory/" }
  else if rawURL = lit "https://h/artifactory" then
    .ok { Scheme := lit "https", Host := lit "h", Path := lit "/artifactory" }
  else .error (.external 1)

/-- Staging in which every operating-system call succeeds. -/
def okStaging : Staging :=
  { MkdirAll := fun _ => none, Create := fun _ => none, Copy := fun _ _ => none }

/-- An initialised store over the empty fake backend, with the given labels. -/
def labelStore (labels : GoString) : ObjectStore :=
  { fixtureStore [] with labels := labels }

/-! ## Lemmas on the string functions -/

theorem hasPrefix_iff (s pre : GoString) : HasPrefix s pre = true ↔ pre <+: s := by
  unfold HasPrefix
  exact List.isPrefixOf_iff_prefix

theorem index_none (sep : GoString) : ∀ s : GoString, Index s sep = none → ¬ sep <:+: s := by
  intro s
  induction s with
  | nil =>
    intro h hin
    have hsep : sep = [] := List.infix_nil.mp hin
    simp [Index, hsep] at h
  | cons c t ih =>
    intro h hin
    unfold Index at h
    split at h
    · simp at h
    · rename_i hpre
      rcases List.infix_cons_iff.mp hin with hp | hi
      · exact hpre ((hasPrefix_iff _ _).mpr hp)
      · cases ht : Index t sep with
        | none => exact ih ht hi
        | some m => simp [ht] at h

theorem index_some (sep : GoString) : ∀ (s : GoString) (m : Nat), Index s sep = some m →
    m ≤ s.length ∧ (∃ rest, s = s.take m ++ sep ++ rest) ∧
      ∀ a b, s = a ++ sep ++ b → m ≤ a.length := by
  intro s
  induction s with
  | nil =>
    intro m h
    unfold Index at h
    split at h
    · rename_i hsep
      simp at h
      subst h
      subst hsep
      exact ⟨Nat.le_refl _, ⟨[], by simp⟩, fun a b _ => Nat.zero_le _⟩
    · simp at h
  | cons c t ih =>
    intro m h
    unfold Index at h
    split at h
    · rename_i hpre
      simp at h
      subst h
      obtain ⟨rest, hrest⟩ := (hasPrefix_iff _ _).mp hpre
      exact ⟨Nat.zero_le _, ⟨rest, by simpa using hrest.symm⟩, fun a b _ => Nat.zero_le _⟩
    · rename_i hpre
      cases ht : Index t sep with
      | none => simp [ht] at h
      | some k =>
        simp [ht] at h
        subst h
        obtain ⟨hk, ⟨rest, hrest⟩, hmin⟩ := ih k ht
        refine ⟨by simpa using hk, ⟨rest, ?_⟩, ?_⟩
        · simp only [List.take_succ_cons, List.cons_append]
          exact congrArg (c :: ·) hrest
        · intro a b hab
          cases a with
          | nil =>
            exfalso
            apply hpre
            rw [hasPrefix_iff]
            exact ⟨b, by simpa using hab.symm⟩
          | cons a0 a1 =>
            simp only [List.cons_append, List.cons.injEq] at hab
            have := hmin a1 b hab.2
            simpa using this

theorem split_head (s sep : GoString) (hsep : sep ≠ []) :
    ∃ d0 ds, Split s sep = d0 :: ds ∧ IsFirstSegment sep s d0 := by
  unfold Split
  rw [if_neg hsep]
  cases hlen : s.length with
  | zero =>
    have hs : s = [] := List.length_eq_zero.mp hlen
    subst hs
    refine ⟨[], [], rfl, Or.inl ⟨?_, rfl⟩⟩
    intro hin
    exact hsep (List.infix_nil.mp hin)
  | succ n =>
    unfold genSplit
    cases hidx : Index s sep with
    | none => exact ⟨s, [], rfl, Or.inl ⟨index_none sep s hidx, rfl⟩⟩
    | some m =>
      obtain ⟨hm, ⟨rest, hrest⟩, hmin⟩ := index_some sep s m hidx
      refine ⟨s.take m, _, rfl, Or.inr ⟨rest, hrest, ?_⟩⟩
      intro a b hab
      rw [List.length_take, Nat.min_eq_left hm]
      exact hmin a b hab

theorem isFirstSegment_unique (delim sub a b : GoString)
    (ha : IsFirstSegment delim sub a) (hb : IsFirstSegment delim sub b) : a = b := by
  rcases ha with ⟨hna, rfl⟩ | ⟨ra, hra, hmina⟩
  · rcases hb with ⟨_, rfl⟩ | ⟨rb, hrb, _⟩
    · rfl
    · exact absurd ⟨b, rb, hrb.symm⟩ hna
  · rcases hb with ⟨hnb, rfl⟩ | ⟨rb, hrb, hminb⟩
    · exact absurd ⟨a, ra, hra.symm⟩ hnb
    · have h1 := hmina b rb hrb
      have h2 := hminb a ra hra
      have hlen : a.length = b.length := Nat.le_antisymm h1 h2
      have hab : a ++ (delim ++ ra) = b ++ (delim ++ rb) := by
        rw [← List.append_assoc, ← List.append_assoc, ← hra, ← hrb]
      exact (List.append_inj hab hlen).1

/-! ## The counters of `Split` are large enough -/

theorem genSplit_stable (sep : GoString) (hsep : sep ≠ []) :
    ∀ (n : Nat) (s : GoString), s.length ≤ n → genSplit sep (n + 1) s = genSplit sep n s := by
  intro n
  induction n with
  | zero =>
    intro s hs
    have hnil : s = [] := List.length_eq_zero.mp (Nat.le_zero.mp hs)
    subst hnil
    simp [genSplit, Index, hsep]
  | succ n ih =>
    intro s hs
    rw [genSplit, genSplit]
    cases hidx : Index s sep with
    | none => rfl
    | some m =>
      simp only
      rw [ih]
      have hpos : 0 < sep.length := List.length_pos.mpr hsep
      rw [List.length_drop]
      omega

theorem runeSizeTail_pos (sz lo hi : Nat) (rest : GoString) : 1 ≤ runeSizeTail sz lo hi rest := by
  unfold runeSizeTail
  split
  · exact Nat.le_refl _
  · split
    · exact Nat.le_refl _
    · split
      · exact Nat.le_refl _
      · split
        · omega
        · split
          · exact Nat.le_refl _
          · split
            · exact Nat.le_refl _
            · split
              · omega
              · split
                · exact Nat.le_refl _
                · split <;> omega

theorem runeSize_pos (s : GoString) (hs : s ≠ []) : 1 ≤ runeSize s := by
  cases s with
  | nil => exact absurd rfl hs
  | cons s0 rest =>
    simp only [runeSize]
    split
    · exact Nat.le_refl _
    · exact runeSizeTail_pos _ _ _ _

theorem explode_stable :
    ∀ (n : Nat) (s : GoString), s.length ≤ n → explode (n + 1) s = explode n s := by
  intro n
  induction n with
  | zero =>
    intro s hs
    have hnil : s = [] := List.length_eq_zero.mp (Nat.le_zero.mp hs)
    subst hnil
    simp [explode]
  | succ n ih =>
    intro s hs
    have e1 : explode (n + 1 + 1) s =
        if s = [] then [] else s.take (runeSize s) :: explode (n + 1) (s.drop (runeSize s)) :=
      rfl
    have e2 : explode (n + 1) s =
        if s = [] then [] else s.take (runeSize s) :: explode n (s.drop (runeSize s)) :=
      rfl
    rw [e1, e2]
    by_cases hnil : s = []
    · rw [if_pos hnil, if_pos hnil]
    · rw [if_neg hnil, if_neg hnil, ih]
      have := runeSize_pos s hnil
      rw [List.length_drop]
      omega

/-- The counter of `Split` never cuts the result short: a larger one gives the same pieces. -/
theorem split_counter_enough (s sep : GoString) (k : Nat) :
    (if sep = [] then explode (s.length + k) s else genSplit sep (s.length + k) s)
      = Split s sep := by
  unfold Split
  induction k with
  | zero => rfl
  | succ k ih =>
    by_cases hsep : sep = []
    · rw [if_pos hsep] at ih ⊢
      rw [← ih, ← Nat.add_assoc, explode_stable _ _ (Nat.le_add_right _ _)]
    · rw [if_neg hsep] at ih ⊢
      rw [← ih, ← Nat.add_assoc, genSplit_stable sep hsep _ _ (Nat.le_add_right _ _)]

/-! ## Lemmas on the result loop -/

theorem listLoop_ok_candidates (bucket pfx delimiter : GoString) :
    ∀ (records : List ResultItem) (acc out : List GoString),
      listLoop bucket pfx delimiter records acc = .ok out →
      ∃ cands : List GoString,
        records.map (objectOf bucket pfx delimiter) = cands.map Except.ok := by
  intro records
  induction records with
  | nil => intro acc out _; exact ⟨[], rfl⟩
  | cons r rs ih =>
    intro acc out h
    unfold listLoop at h
    cases hobj : objectOf bucket pfx delimiter r with
    | error p => simp [hobj] at h
    | ok object =>
      simp only [hobj] at h
      split at h
      · obtain ⟨cands, hc⟩ := ih acc out h
        exact ⟨object :: cands, by simp [hobj, hc]⟩
      · obtain ⟨cands, hc⟩ := ih _ out h
        exact ⟨object :: cands, by simp [hobj, hc]⟩

theorem listLoop_spec (bucket pfx delimiter : GoString) (all : List GoString) :
    ∀ (records : List ResultItem) (rest done acc : List GoString),
      records.map (objectOf bucket pfx delimiter) = rest.map Except.ok →
      all = done ++ rest →
      acc.Nodup → (∀ x, x ∈ acc ↔ x ∈ done) →
      acc.Pairwise (ProducedBefore all) →
      ∃ out, listLoop bucket pfx delimiter records acc = .ok out ∧ out.Nodup ∧
        (∀ x, x ∈ out ↔ x ∈ all) ∧
        out.Pairwise (ProducedBefore all) := by
  intro records
  induction records with
  | nil =>
    intro rest done acc hmap hall hnd hmem hpw
    cases rest with
    | nil =>
      simp at hall
      subst hall
      exact ⟨acc, rfl, hnd, hmem, hpw⟩
    | cons c cs => simp at hmap
  | cons r rs ih =>
    intro rest done acc hmap hall hnd hmem hpw
    cases rest with
    | nil => simp at hmap
    | cons c cs =>
      simp only [List.map_cons, List.cons.injEq] at hmap
      obtain ⟨hobj, hmap⟩ := hmap
      unfold listLoop
      simp only [hobj]
      have hall2 : all = (done ++ [c]) ++ cs := by simp [hall]
      by_cases hc : c ∈ acc
      · rw [if_pos hc]
        refine ih cs (done ++ [c]) acc hmap hall2 hnd ?_ hpw
        intro x
        constructor
        · intro hx
          exact List.mem_append_left _ ((hmem x).mp hx)
        · intro hx
          rcases List.mem_append.mp hx with hx | hx
          · exact (hmem x).mpr hx
          · simp at hx
            subst hx
            exact hc
      · rw [if_neg hc]
        have hcd : c ∉ done := fun h => hc ((hmem c).mpr h)
        refine ih cs (done ++ [c]) (acc ++ [c]) hmap hall2 ?_ ?_ ?_
        · exact List.Nodup.append hnd (List.nodup_singleton c) (by
            intro x hx hx2
            simp at hx2
            subst hx2
            exact hc hx)
        · intro x
          simp only [List.mem_append, List.mem_singleton]
          rw [hmem x]
        · rw [List.pairwise_append]
          refine ⟨hpw, List.pairwise_singleton _ _, ?_⟩
          intro x hx y hy
          simp at hy
          subst hy
          have hxd : x ∈ done := (hmem x).mp hx
          obtain ⟨p, q, hpq, hxp⟩ := List.eq_append_cons_of_mem hxd
          refine ⟨p, q ++ y :: cs, ?_, hxp, ?_, ?_⟩
          · rw [hall, hpq]
            simp
          · intro hyp
            apply hcd
            rw [hpq]
            exact List.mem_append_left _ hyp
          · intro hyx
            subst hyx
            exact hcd hxd

theorem exists_candidates (bucket pfx delimiter : GoString) :
    ∀ records : List ResultItem,
      (∀ r ∈ records, ∃ o, objectOf bucket pfx delimiter r = .ok o) →
      ∃ cands : List GoString,
        records.map (objectOf bucket pfx delimiter) = cands.map Except.ok := by
  intro records
  induction records with
  | nil => intro _; exact ⟨[], rfl⟩
  | cons r rs ih =>
    intro h
    obtain ⟨o, ho⟩ := h r (List.mem_cons_self _ _)
    obtain ⟨cands, hc⟩ := ih (fun r hr => h r (List.mem_cons_of_mem _ hr))
    exact ⟨o :: cands, by simp [ho, hc]⟩

theorem mem_candidates_iff (bucket pfx delimiter : GoString) (records : List ResultItem)
    (cands : List GoString)
    (h : records.map (objectOf bucket pfx delimiter) = cands.map Except.ok) (x : GoString) :
    x ∈ cands ↔ ∃ r ∈ records, objectOf bucket pfx delimiter r = .ok x := by
  constructor
  · intro hx
    have : (Except.ok x : Except GoPanic GoString) ∈ cands.map Except.ok :=
      List.mem_map_of_mem _ hx
    rw [← h] at this
    obtain ⟨r, hr, hrx⟩ := List.mem_map.mp this
    exact ⟨r, hr, hrx⟩
  · rintro ⟨r, hr, hrx⟩
    have : (Except.ok x : Except GoPanic GoString) ∈
        records.map (objectOf bucket pfx delimiter) := by
      rw [← hrx]
      exact List.mem_map_of_mem _ hr
    rw [h] at this
    obtain ⟨y, hy, hyx⟩ := List.mem_map.mp this
    cases hyx
    exact hy

theorem listLoop_from_empty (bucket pfx delimiter : GoString) (records : List ResultItem)
    (cands : List GoString)
    (h : records.map (objectOf bucket pfx delimiter) = cands.map Except.ok) :
    ∃ out, listLoop bucket pfx delimiter records [] = .ok out ∧ out.Nodup ∧
      (∀ x, x ∈ out ↔ x ∈ cands) ∧ out.Pairwise (ProducedBefore cands) :=
  listLoop_spec bucket pfx delimiter cands records cands [] [] h rfl List.nodup_nil
    (fun _ => Iff.rfl) List.Pairwise.nil

theorem explode_ne_nil (s : GoString) (hs : s ≠ []) : explode s.length s ≠ [] := by
  cases hlen : s.length with
  | zero => exact absurd (List.length_eq_zero.mp hlen) hs
  | succ n =>
    unfold explode
    rw [if_neg hs]
    exact List.cons_ne_nil _ _

theorem split_ne_nil (s sep : GoString) (h : sep = [] → s ≠ []) : Split s sep ≠ [] := by
  by_cases hsep : sep = []
  · unfold Split
    rw [if_pos hsep]
    exact explode_ne_nil s (h hsep)
  · obtain ⟨d0, ds, hsplit, _⟩ := split_head s sep hsep
    rw [hsplit]
    exact List.cons_ne_nil _ _

theorem objectOf_of_length (bucket pfx delimiter : GoString) (r : ResultItem)
    (hlen : (beginningS bucket pfx).length ≤ (artifactOf r).length) (x : GoString) :
    objectOf bucket pfx delimiter r = .ok x ↔
      ∃ d0, (Split ((artifactOf r).drop (beginningS bucket pfx).length) delimiter).head? = some d0 ∧
        x = pfx ++ d0 ++ delimiter := by
  unfold objectOf
  simp only
  rw [if_neg (Nat.not_lt.mpr hlen)]
  cases hsplit : Split ((artifactOf r).drop (beginningS bucket pfx).length) delimiter with
  | nil => simp
  | cons d0 ds =>
    simp only [List.head?_cons, Option.some.injEq, exists_eq_left', Except.ok.injEq]
    exact eq_comm

/-! ## The claims on the listing algorithm -/

/-- C1. For every bucket, prefix and non-empty delimiter, when the store is initialised and
the backend search succeeds with results whose identity `<repo>/<path>/<name>` starts with
`<bucket>/<prefix>`, `ListCommonPrefixes` returns without error a list whose elements are
exactly the strings `prefix + s + delimiter`, where `s` is the text of a result's sub-key
(the identity minus the leading `<bucket>/<prefix>`) before its first occurrence of the
delimiter, or the whole sub-key when the delimiter does not occur in it. -/
theorem ListCommonPrefixes_exact (f : ObjectStore) (m : ServicesManager)
    (reader : ContentReader) (bucket pfx delimiter : GoString)
    (hm : f.rtManager = some m)
    (hsearch : m.SearchFiles (listParams f bucket pfx) = .ok reader)
    (hdelim : delimiter ≠ [])
    (hstart : ∀ r ∈ reader.records,
      HasPrefix (artifactOf r) (bucket ++ lit "/" ++ pfx) = true) :
    ∃ out, ListCommonPrefixes f bucket pfx delimiter = .ok out ∧
      ∀ x, x ∈ out ↔ ∃ r ∈ reader.records, ∃ sub seg,
        artifactOf r = bucket ++ lit "/" ++ pfx ++ sub ∧
        IsFirstSegment delimiter sub seg ∧ x = pfx ++ seg ++ delimiter := by
  have hdrop : ∀ r ∈ reader.records,
      artifactOf r = bucket ++ lit "/" ++ pfx ++
        (artifactOf r).drop (beginningS bucket pfx).length := by
    intro r hr
    have := (hasPrefix_iff _ _).mp (hstart r hr)
    exact (List.prefix_iff_eq_append.mp this).symm
  have hle : ∀ r ∈ reader.records,
      (beginningS bucket pfx).length ≤ (artifactOf r).length := by
    intro r hr
    exact ((hasPrefix_iff _ _).mp (hstart r hr)).length_le
  have hobj : ∀ r ∈ reader.records, ∀ x, objectOf bucket pfx delimiter r = .ok x ↔
      ∃ sub seg, artifactOf r = bucket ++ lit "/" ++ pfx ++ sub ∧
        IsFirstSegment delimiter sub seg ∧ x = pfx ++ seg ++ delimiter := by
    intro r hr x
    rw [objectOf_of_length bucket pfx delimiter r (hle r hr) x]
    obtain ⟨d0, ds, hsplit, hfirst⟩ :=
      split_head ((artifactOf r).drop (beginningS bucket pfx).length) delimiter hdelim
    constructor
    · rintro ⟨d, hd, hx⟩
      rw [hsplit] at hd
      simp at hd
      subst hd
      exact ⟨_, d0, hdrop r hr, hfirst, hx⟩
    · rintro ⟨sub, seg, hsub, hseg, hx⟩
      have hsub2 : sub = (artifactOf r).drop (beginningS bucket pfx).length := by
        have h1 := hdrop r hr
        rw [hsub] at h1
        have h2 := List.append_cancel_left h1
        rw [h2, ← hsub]
      subst hsub2
      refine ⟨d0, by rw [hsplit]; rfl, ?_⟩
      rw [hx, isFirstSegment_unique _ _ _ _ hseg hfirst]
  obtain ⟨cands, hc⟩ := exists_candidates bucket pfx delimiter reader.records (by
    intro r hr
    obtain ⟨d0, ds, hsplit, hfirst⟩ :=
      split_head ((artifactOf r).drop (beginningS bucket pfx).length) delimiter hdelim
    exact ⟨pfx ++ d0 ++ delimiter,
      (hobj r hr _).mpr ⟨_, d0, hdrop r hr, hfirst, rfl⟩⟩)
  obtain ⟨out, hout, _, hmem, _⟩ := listLoop_from_empty bucket pfx delimiter _ cands hc
  refine ⟨out, ?_, ?_⟩
  · unfold ListCommonPrefixes
    simp only [hm, hsearch]
    exact hout
  · intro x
    rw [hmem x, mem_candidates_iff bucket pfx delimiter _ cands hc x]
    constructor
    · rintro ⟨r, hr, hrx⟩
      exact ⟨r, hr, (hobj r hr x).mp hrx⟩
    · rintro ⟨r, hr, hrest⟩
      exact ⟨r, hr, (hobj r hr x).mpr hrest⟩

/-- C1, on the fixture of the specification: over the keys `x/1/a`, `x/1/b`, `x/2/c`,
`y/3/d` the listing is `x/`, `y/` for the empty prefix and `x/1/`, `x/2/` for the
prefix `x/`, with delimiter `/`. -/
theorem ListCommonPrefixes_exact_witness :
    ListCommonPrefixes (fixtureStore fixtureKeys) (lit "bkt") (lit "") (lit "/")
        = .ok [lit "x/", lit "y/"] ∧
    ListCommonPrefixes (fixtureStore fixtureKeys) (lit "bkt") (lit "x/") (lit "/")
        = .ok [lit "x/1/", lit "x/2/"] ∧
    ∃ out, ListCommonPrefixes (fixtureStore fixtureKeys) (lit "bkt") (lit "x/") (lit "/")
        = .ok out ∧
      ∀ x, x ∈ out ↔ ∃ r ∈ (fakeSearch fixtureKeys (lit "bkt/x/*")).records, ∃ sub seg,
        artifactOf r = lit "bkt" ++ lit "/" ++ lit "x/" ++ sub ∧
        IsFirstSegment (lit "/") sub seg ∧ x = lit "x/" ++ seg ++ lit "/" :=
  ⟨by decide, by decide,
    ListCommonPrefixes_exact (fixtureStore fixtureKeys)
      (fakeManager (fixtureDetails (lit "https://h/") [] [] []) fixtureKeys)
      (fakeSearch fixtureKeys (lit "bkt/x/*")) (lit "bkt") (lit "x/") (lit "/")
      rfl rfl (by decide) (by decide)⟩

/-- C8. Whenever `ListCommonPrefixes` returns normally, the returned list contains no string
twice, it holds exactly the strings produced by the results (`cands` lists them, one per
result, in the order the backend returned the results), and its elements appear in the
order of their first producing result. -/
theorem ListCommonPrefixes_nodup_in_order (f : ObjectStore) (bucket pfx delimiter : GoString)
    (out : List GoString) (h : ListCommonPrefixes f bucket pfx delimiter = .ok out) :
    out.Nodup ∧
    ∃ m reader cands, f.rtManager = some m ∧
      m.SearchFiles (listParams f bucket pfx) = .ok reader ∧
      reader.records.map (objectOf bucket pfx delimiter) = cands.map Except.ok ∧
      (∀ x, x ∈ out ↔ x ∈ cands) ∧ out.Pairwise (ProducedBefore cands) := by
  unfold ListCommonPrefixes at h
  cases hm : f.rtManager with
  | none => simp [hm] at h
  | some m =>
    simp only [hm] at h
    cases hsearch : m.SearchFiles (listParams f bucket pfx) with
    | error e => simp [hsearch] at h
    | ok reader =>
      simp only [hsearch] at h
      obtain ⟨cands, hc⟩ := listLoop_ok_candidates bucket pfx delimiter _ _ _ h
      obtain ⟨out2, hout2, hnd, hmem, hpw⟩ :=
        listLoop_from_empty bucket pfx delimiter _ cands hc
      rw [h] at hout2
      cases hout2
      exact ⟨hnd, m, reader, cands, rfl, hsearch, hc, hmem, hpw⟩

/-- C8, on a backend returning `y/3/d`, `x/1/a`, `y/3/e`, `x/1/b` in this order: four
results, two entries, `y/` first. -/
theorem ListCommonPrefixes_nodup_in_order_witness :
    ListCommonPrefixes
        (stubStore [item "bkt" "y/3" "d", item "bkt" "x/1" "a", item "bkt" "y/3" "e",
          item "bkt" "x/1" "b"]) (lit "bkt") (lit "") (lit "/") = .ok [lit "y/", lit "x/"] ∧
    [lit "y/", lit "x/"].Nodup ∧
    ∃ m reader cands,
      (stubStore [item "bkt" "y/3" "d", item "bkt" "x/1" "a", item "bkt" "y/3" "e",
          item "bkt" "x/1" "b"]).rtManager = some m ∧
      m.SearchFiles (listParams (stubStore [item "bkt" "y/3" "d", item "bkt" "x/1" "a",
          item "bkt" "y/3" "e", item "bkt" "x/1" "b"]) (lit "bkt") (lit "")) = .ok reader ∧
      reader.records.map (objectOf (lit "bkt") (lit "") (lit "/")) = cands.map Except.ok ∧
      (∀ x, x ∈ [lit "y/", lit "x/"] ↔ x ∈ cands) ∧
      [lit "y/", lit "x/"].Pairwise (ProducedBefore cands) :=
  ⟨by decide,
    ListCommonPrefixes_nodup_in_order _ (lit "bkt") (lit "") (lit "/") [lit "y/", lit "x/"]
      (by decide)⟩

/-- C5, as the code has it. For every bucket, prefix and delimiter, when the store is
initialised, the search succeeds, every identity is at least as long as
`<bucket>/<prefix>` and, for an empty delimiter, longer, `ListCommonPrefixes` returns
normally and skips no result: whether or not its identity starts with
`<bucket>/<prefix>`, each result contributes `prefix + d0 + delimiter`, where `d0` is
the first piece of the identity cut after its first `len("<bucket>/<prefix>")` bytes,
and the returned list holds exactly these strings. -/
theorem ListCommonPrefixes_skips_nothing (f : ObjectStore) (m : ServicesManager)
    (reader : ContentReader) (bucket pfx delimiter : GoString)
    (hm : f.rtManager = some m)
    (hsearch : m.SearchFiles (listParams f bucket pfx) = .ok reader)
    (hlen : ∀ r ∈ reader.records,
      (bucket ++ lit "/" ++ pfx).length ≤ (artifactOf r).length ∧
      (delimiter = [] → (bucket ++ lit "/" ++ pfx).length < (artifactOf r).length)) :
    ∃ out, ListCommonPrefixes f bucket pfx delimiter = .ok out ∧
      (∀ r ∈ reader.records, ∃ d0,
        (Split ((artifactOf r).drop (bucket ++ lit "/" ++ pfx).length) delimiter).head?
          = some d0 ∧ pfx ++ d0 ++ delimiter ∈ out) ∧
      ∀ x, x ∈ out ↔ ∃ r ∈ reader.records, ∃ d0,
        (Split ((artifactOf r).drop (bucket ++ lit "/" ++ pfx).length) delimiter).head?
          = some d0 ∧ x = pfx ++ d0 ++ delimiter := by
  have hhead : ∀ r ∈ reader.records, ∃ d0,
      (Split ((artifactOf r).drop (beginningS bucket pfx).length) delimiter).head?
        = some d0 := by
    intro r hr
    have hne : Split ((artifactOf r).drop (beginningS bucket pfx).length) delimiter ≠ [] := by
      apply split_ne_nil
      intro hd hnil
      have h1 := (hlen r hr).2 hd
      have h2 := congrArg List.length hnil
      simp only [List.length_drop, List.length_nil] at h2
      unfold beginningS at h2
      omega
    cases hs : Split ((artifactOf r).drop (beginningS bucket pfx).length) delimiter with
    | nil => exact absurd hs hne
    | cons d0 ds => exact ⟨d0, rfl⟩
  obtain ⟨cands, hc⟩ := exists_candidates bucket pfx delimiter reader.records (by
    intro r hr
    obtain ⟨d0, hd0⟩ := hhead r hr
    exact ⟨pfx ++ d0 ++ delimiter,
      (objectOf_of_length bucket pfx delimiter r (hlen r hr).1 _).mpr ⟨d0, hd0, rfl⟩⟩)
  obtain ⟨out, hout, _, hmem, _⟩ := listLoop_from_empty bucket pfx delimiter _ cands hc
  have hiff : ∀ x, x ∈ out ↔ ∃ r ∈ reader.records, ∃ d0,
      (Split ((artifactOf r).drop (bucket ++ lit "/" ++ pfx).length) delimiter).head?
        = some d0 ∧ x = pfx ++ d0 ++ delimiter := by
    intro x
    rw [hmem x, mem_candidates_iff bucket pfx delimiter _ cands hc x]
    constructor
    · rintro ⟨r, hr, hrx⟩
      exact ⟨r, hr, (objectOf_of_length bucket pfx delimiter r (hlen r hr).1 x).mp hrx⟩
    · rintro ⟨r, hr, hrest⟩
      exact ⟨r, hr, (objectOf_of_length bucket pfx delimiter r (hlen r hr).1 x).mpr hrest⟩
  refine ⟨out, ?_, ?_, hiff⟩
  · unfold ListCommonPrefixes
    simp only [hm, hsearch]
    exact hout
  · intro r hr
    obtain ⟨d0, hd0⟩ := hhead r hr
    exact ⟨d0, hd0, (hiff _).mpr ⟨r, hr, d0, hd0, rfl⟩⟩

/-- C5, at a backend result `zzz/other/file` that does not start with `bkt/x/`: it is
not skipped, it contributes `x/her/`. -/
theorem ListCommonPrefixes_skips_nothing_witness :
    HasPrefix (artifactOf (item "zzz" "other" "file")) (lit "bkt/x/") = false ∧
    ∃ out, ListCommonPrefixes (stubStore [item "zzz" "other" "file"]) (lit "bkt") (lit "x/")
        (lit "/") = .ok out ∧
      (∀ r ∈ [item "zzz" "other" "file"], ∃ d0,
        (Split ((artifactOf r).drop (lit "bkt" ++ lit "/" ++ lit "x/").length) (lit "/")).head?
          = some d0 ∧ lit "x/" ++ d0 ++ lit "/" ∈ out) ∧
      ∀ x, x ∈ out ↔ ∃ r ∈ [item "zzz" "other" "file"], ∃ d0,
        (Split ((artifactOf r).drop (lit "bkt" ++ lit "/" ++ lit "x/").length) (lit "/")).head?
          = some d0 ∧ x = lit "x/" ++ d0 ++ lit "/" :=
  ⟨by decide,
    ListCommonPrefixes_skips_nothing (stubStore [item "zzz" "other" "file"])
      (stubManager { records := [item "zzz" "other" "file"], Length := .ok 1 })
      { records := [item "zzz" "other" "file"], Length := .ok 1 }
      (lit "bkt") (lit "x/") (lit "/") rfl rfl (by decide)⟩

/-- C5 fails as stated. A result whose identity `r/p/n` is shorter than `bucket/` makes
`ListCommonPrefixes` panic on the slice, and a result `zzz/other/file`, which does not
start with `bkt/x/`, is not skipped: it yields the entry `x/her/`, cut at offset 6. -/
theorem ListCommonPrefixes_skip_counterexample :
    ListCommonPrefixes (stubStore [item "r" "p" "n"]) (lit "bucket") (lit "") (lit "/")
        = .panic (.sliceBoundsOutOfRange 7 5) ∧
    HasPrefix (artifactOf (item "zzz" "other" "file")) (lit "bkt/x/") = false ∧
    ListCommonPrefixes (stubStore [item "zzz" "other" "file"]) (lit "bkt") (lit "x/") (lit "/")
        = .ok [lit "x/her/"] := by
  decide

/-! ## The resilience settings of `Init` -/

theorem setting_bind_ok {α β : Type} (raw : GoString) (parse : GoString → Except GoError α)
    (dflt : α) (k : α → Except GoError β) (r : β) :
    ((if raw ≠ [] then parse raw else pure dflt) >>= k) = .ok r ↔
      ∃ v, Resolves raw parse dflt v ∧ k v = .ok r := by
  unfold Resolves
  by_cases hraw : raw = []
  · simp [hraw, bind, Except.bind, pure, Except.pure]
  · cases hp : parse raw with
    | error e => simp [hraw, hp, bind, Except.bind]
    | ok v => simp [hraw, hp, bind, Except.bind]

theorem setting_resolvable {α : Type} (raw : GoString) (parse : GoString → Except GoError α)
    (dflt : α) : (¬ ∃ v, Resolves raw parse dflt v) ↔ Unparsable raw parse := by
  unfold Resolves Unparsable
  by_cases hraw : raw = []
  · simp [hraw]
  · simp [hraw]

theorem resolveResilience_ok (config : Config) (s : Resilience) :
    resolveResilience config = .ok s ↔
      Resolves (config.get (lit "dry_run")) ParseBool false s.dry_run ∧
      Resolves (config.get (lit "threads")) Atoi 3 s.threads ∧
      Resolves (config.get (lit "dial_timeout")) (fun t => (Atoi t).map secondsDuration)
        (30 * Second) s.dial_timeout ∧
      Resolves (config.get (lit "request_timeout")) (fun t => (Atoi t).map secondsDuration)
        (10 * Minute) s.request_timeout ∧
      Resolves (config.get (lit "retries")) Atoi 3 s.retries := by
  unfold resolveResilience
  rw [setting_bind_ok]
  simp only [setting_bind_ok
    (config.get (lit "dial_timeout")) (fun t => (Atoi t).map secondsDuration),
    setting_bind_ok
    (config.get (lit "request_timeout")) (fun t => (Atoi t).map secondsDuration),
    setting_bind_ok]
  constructor
  · rintro ⟨v1, h1, v2, h2, v3, h3, v4, h4, v5, h5, hs⟩
    simp only [pure, Except.pure, Except.ok.injEq] at hs
    subst hs
    exact ⟨h1, h2, h3, h4, h5⟩
  · rintro ⟨h1, h2, h3, h4, h5⟩
    exact ⟨_, h1, _, h2, _, h3, _, h4, _, h5, rfl⟩

theorem unparsable_map {α β : Type} (raw : GoString) (parse : GoString → Except GoError α)
    (g : α → β) : Unparsable raw (fun t => (parse t).map g) ↔ Unparsable raw parse := by
  unfold Unparsable
  cases hp : parse raw with
  | error e => simp [Except.map, hp]
  | ok v => simp [Except.map, hp]

theorem resolves_seconds (raw : GoString) (dflt v : Int)
    (h : Resolves raw (fun t => (Atoi t).map secondsDuration) dflt v) :
    (raw = [] ∧ v = dflt) ∨ (raw ≠ [] ∧ ∃ n, Atoi raw = .ok n ∧ v = secondsDuration n) := by
  rcases h with h | ⟨hraw, hp⟩
  · exact Or.inl h
  · right
    refine ⟨hraw, ?_⟩
    cases ha : Atoi raw with
    | error e => simp [ha, Except.map] at hp
    | ok n =>
      simp only [ha, Except.map, Except.ok.injEq] at hp
      exact ⟨n, rfl, hp.symm⟩

theorem resolves_in_seconds (raw : GoString) (dflt v : Int)
    (h : Resolves raw (fun t => (Atoi t).map secondsDuration) dflt v) :
    (raw = [] ∧ v = dflt) ∨
      (raw ≠ [] ∧ ∃ n, Atoi raw = .ok n ∧
        (-9223372036 ≤ n → n ≤ 9223372036 → v = n * 1000000000)) := by
  rcases resolves_seconds raw dflt v h with h | ⟨hraw, n, hn, hv⟩
  · exact Or.inl h
  · refine Or.inr ⟨hraw, n, hn, ?_⟩
    intro hlo hhi
    rw [hv]
    unfold secondsDuration wrapInt64 Second
    omega

/-- `strconv.Atoi` accepts every non-empty string of decimal digits whose value fits
`int64`, and returns that value. -/
theorem Atoi_digits (ds : GoString) (hne : ds ≠ []) (hd : ds.all isDigit = true)
    (hr : digitsValue ds < 2 ^ 63) : Atoi ds = .ok (digitsValue ds : Int) := by
  cases ds with
  | nil => exact absurd rfl hne
  | cons c t =>
    have hc : isDigit c = true := by
      simp only [List.all_cons, Bool.and_eq_true] at hd
      exact hd.1
    have h45 : c ≠ 45 := by
      intro h
      subst h
      exact absurd hc (by decide)
    have h43 : c ≠ 43 := by
      intro h
      subst h
      exact absurd hc (by decide)
    unfold Atoi
    simp only [List.head?_cons, Option.some.injEq, h45, h43, or_self, if_false, hd,
      Bool.true_eq_false, or_false, reduceCtorEq, hr, if_true]

/-- C9, as the code has it. For every configuration map, the resilience resolution of
`Init` fails exactly when one of `dry_run`, `threads`, `dial_timeout`, `request_timeout`,
`retries` is present, non-empty and not parseable (`strconv.ParseBool` for `dry_run`,
`strconv.Atoi` for the others); `Init` then returns that error whatever the client library
would do and leaves `rtManager` as it was: no client is built. Otherwise every absent or
empty key resolves to its default (`false`, `3`, 30 s, 10 min, `3`) and every present key
to its parsed value, a parsed timeout `n` with `-9223372036 ≤ n ≤ 9223372036` being `n`
seconds; `Init` hands exactly these settings to the builder, returns the error of `Build`
when it fails, and otherwise installs the manager and returns the error of
`artifactory.New`. With no key at all the settings are the defaults, `threads="abc"`
fails, and `dry_run=true`, `threads=8`, `dial_timeout=5`, `request_timeout=120`,
`retries=0` resolve to `true`, `8`, 5 s, 120 s, `0`. -/
theorem Init_resilience (config : Config) :
    ((∃ err, resolveResilience config = .error err) ↔
      Unparsable (config.get (lit "dry_run")) ParseBool ∨
      Unparsable (config.get (lit "threads")) Atoi ∨
      Unparsable (config.get (lit "dial_timeout")) Atoi ∨
      Unparsable (config.get (lit "request_timeout")) Atoi ∨
      Unparsable (config.get (lit "retries")) Atoi) ∧
    (∀ (lib : Library) (getenv : GoString → GoString) (f : ObjectStore) (err : GoError),
      resolveResilience config = .error err →
      Init lib getenv f config = (some err, { f with labels := config.get (lit "labels") })) ∧
    (∀ s, resolveResilience config = .ok s →
      ((config.get (lit "dry_run") = [] ∧ s.dry_run = false) ∨
        (config.get (lit "dry_run") ≠ [] ∧
          ParseBool (config.get (lit "dry_run")) = .ok s.dry_run)) ∧
      ((config.get (lit "threads") = [] ∧ s.threads = 3) ∨
        (config.get (lit "threads") ≠ [] ∧ Atoi (config.get (lit "threads")) = .ok s.threads)) ∧
      ((config.get (lit "dial_timeout") = [] ∧ s.dial_timeout = 30 * 1000000000) ∨
        (config.get (lit "dial_timeout") ≠ [] ∧ ∃ n,
          Atoi (config.get (lit "dial_timeout")) = .ok n ∧
          (-9223372036 ≤ n → n ≤ 9223372036 → s.dial_timeout = n * 1000000000))) ∧
      ((config.get (lit "request_timeout") = [] ∧ s.request_timeout = 600 * 1000000000) ∨
        (config.get (lit "request_timeout") ≠ [] ∧ ∃ n,
          Atoi (config.get (lit "request_timeout")) = .ok n ∧
          (-9223372036 ≤ n → n ≤ 9223372036 → s.request_timeout = n * 1000000000))) ∧
      ((config.get (lit "retries") = [] ∧ s.retries = 3) ∨
        (config.get (lit "retries") ≠ [] ∧
          Atoi (config.get (lit "retries")) = .ok s.retries))) ∧
    (∀ (lib : Library) (getenv : GoString → GoString) (f : ObjectStore) (s : Resilience),
      resolveResilience config = .ok s →
      (∀ err,
        lib.Build
          { ServiceDetails := initDetails getenv config
            DryRun := s.dry_run
            CertificatesPath := getenv (lit "ARTIFACTORY_CLIENT_CERT_PATH")
            Threads := s.threads
            DialTimeout := s.dial_timeout
            OverallRequestTimeout := s.request_timeout
            HttpRetries := s.retries } = .error err →
        Init lib getenv f config =
          (some err, { f with labels := config.get (lit "labels") })) ∧
      (∀ serviceConfig,
        lib.Build
          { ServiceDetails := initDetails getenv config
            DryRun := s.dry_run
            CertificatesPath := getenv (lit "ARTIFACTORY_CLIENT_CERT_PATH")
            Threads := s.threads
            DialTimeout := s.dial_timeout
            OverallRequestTimeout := s.request_timeout
            HttpRetries := s.retries } = .ok serviceConfig →
        Init lib getenv f config =
          ((lib.New serviceConfig).2,
            { labels := config.get (lit "labels"), rtManager := (lib.New serviceConfig).1 }))) ∧
    resolveResilience [] = .ok
      { dry_run := false, threads := 3, dial_timeout := 30 * 1000000000,
        request_timeout := 600 * 1000000000, retries := 3 } ∧
    resolveResilience [(lit "threads", lit "abc")] = .error (.atoi (lit "abc")) ∧
    resolveResilience
        [(lit "dry_run", lit "true"), (lit "threads", lit "8"), (lit "dial_timeout", lit "5"),
          (lit "request_timeout", lit "120"), (lit "retries", lit "0")] = .ok
      { dry_run := true, threads := 8, dial_timeout := 5 * 1000000000,
        request_timeout := 120 * 1000000000, retries := 0 } := by
  refine ⟨?_, ?_, ?_, ?_, rfl, rfl, rfl⟩
  · have hnot : (∃ err, resolveResilience config = .error err) ↔
        ¬ ∃ s, resolveResilience config = .ok s := by
      cases resolveResilience config with
      | error e => simp
      | ok s => simp
    rw [hnot]
    simp only [resolveResilience_ok]
    constructor
    · intro h
      by_contra hcon
      simp only [not_or] at hcon
      obtain ⟨c1, c2, c3, c4, c5⟩ := hcon
      obtain ⟨v1, h1⟩ := not_not.mp (mt (setting_resolvable _ ParseBool false).mp c1)
      obtain ⟨v2, h2⟩ := not_not.mp (mt (setting_resolvable _ Atoi 3).mp c2)
      obtain ⟨v3, h3⟩ := not_not.mp (mt (setting_resolvable _
        (fun t => (Atoi t).map secondsDuration) (30 * Second)).mp
        (mt (unparsable_map _ Atoi secondsDuration).mp c3))
      obtain ⟨v4, h4⟩ := not_not.mp (mt (setting_resolvable _
        (fun t => (Atoi t).map secondsDuration) (10 * Minute)).mp
        (mt (unparsable_map _ Atoi secondsDuration).mp c4))
      obtain ⟨v5, h5⟩ := not_not.mp (mt (setting_resolvable _ Atoi 3).mp c5)
      exact h ⟨⟨v1, v2, v3, v4, v5⟩, h1, h2, h3, h4, h5⟩
    · rintro h ⟨s, h1, h2, h3, h4, h5⟩
      rcases h with h | h | h | h | h
      · exact (setting_resolvable _ ParseBool false).mpr h ⟨_, h1⟩
      · exact (setting_resolvable _ Atoi 3).mpr h ⟨_, h2⟩
      · exact (setting_resolvable _ _ _).mpr
          ((unparsable_map _ Atoi secondsDuration).mpr h) ⟨_, h3⟩
      · exact (setting_resolvable _ _ _).mpr
          ((unparsable_map _ Atoi secondsDuration).mpr h) ⟨_, h4⟩
      · exact (setting_resolvable _ Atoi 3).mpr h ⟨_, h5⟩
  · intro lib getenv f err herr
    unfold Init
    simp only [herr]
  · intro s hs
    obtain ⟨h1, h2, h3, h4, h5⟩ := (resolveResilience_ok config s).mp hs
    have e30 : (30 : Int) * Second = 30 * 1000000000 := rfl
    have e600 : (10 : Int) * Minute = 600 * 1000000000 := by decide
    have h3b := resolves_in_seconds _ _ _ h3
    have h4b := resolves_in_seconds _ _ _ h4
    rw [e30] at h3b
    rw [e600] at h4b
    exact ⟨h1, h2, h3b, h4b, h5⟩
  · intro lib getenv f s hs
    constructor
    · intro err hb
      unfold Init
      simp only [hs, hb]
    · intro serviceConfig hb
      unfold Init
      simp only [hs, hb]

/-- C9 fails as stated. The text `9223372037` parses to the integer 9223372037, and
`dial_timeout="9223372037"` resolves to -9223372036709551616 ns, a negative duration, not
9223372037 seconds: the `int64` product `time.Duration(n) * time.Second` wraps. -/
theorem Init_resilience_counterexample :
    Atoi (lit "9223372037") = .ok 9223372037 ∧
    resolveResilience [(lit "dial_timeout", lit "9223372037")] = .ok
      { dry_run := false, threads := 3, dial_timeout := -9223372036709551616,
        request_timeout := 600 * 1000000000, retries := 3 } ∧
    (-9223372036709551616 : Int) ≠ 9223372037 * 1000000000 := by
  refine ⟨rfl, rfl, by decide⟩

/-! ## The signed URL -/

theorem shouldEscape_unreserved : ∀ c ∈ unreservedChars, shouldEscape c = false := by
  decide

theorem queryEscape_unreserved : ∀ s : GoString, (∀ c ∈ s, c ∈ unreservedChars) →
    QueryEscape s = s := by
  intro s
  induction s with
  | nil => intro _; rfl
  | cons c t ih =>
    intro h
    have hc : shouldEscape c = false := shouldEscape_unreserved c (h c (List.mem_cons_self _ _))
    have ht : QueryEscape t = t := ih (fun x hx => h x (List.mem_cons_of_mem _ hx))
    unfold QueryEscape at ht ⊢
    simp only [List.flatMap_cons, hc, ht]
    simp

theorem createSignedURL_eq (f : ObjectStore) (m : ServicesManager)
    (urlParse : GoString → Except GoError URL) (u : URL) (bucket key : GoString) (ttl : Int)
    (hm : f.rtManager = some m)
    (hu : urlParse m.GetConfig.ServiceDetails.Url = .ok u) :
    CreateSignedURL f urlParse bucket key ttl =
      .ok (lit "https://" ++ QueryEscape m.GetConfig.ServiceDetails.User ++ lit ":" ++
        QueryEscape (firstNonEmpty [m.GetConfig.ServiceDetails.AccessToken,
          m.GetConfig.ServiceDetails.ApiKey, m.GetConfig.ServiceDetails.Password]) ++
        lit "@" ++ u.Host ++ u.Path ++ bucket ++ lit "/" ++ key) := by
  unfold CreateSignedURL
  simp only [hm, hu]
  by_cases h1 : m.GetConfig.ServiceDetails.AccessToken = []
  · by_cases h2 : m.GetConfig.ServiceDetails.ApiKey = []
    · by_cases h3 : m.GetConfig.ServiceDetails.Password = []
      · simp [firstNonEmpty, h1, h2, h3]
      · simp [firstNonEmpty, h1, h2, h3]
    · simp [firstNonEmpty, h1, h2]
  · simp [firstNonEmpty, h1]

/-- C2, as the code has it. For every connection descriptor of an initialised store whose
endpoint parses, `CreateSignedURL` embeds as credential (query-escaped, between `:` and
`@`) the first non-empty value in the order access token, API key, password: the access
token wins over both others, the API key wins over the password, and the password is used
only when the other two are empty. -/
theorem CreateSignedURL_credential (f : ObjectStore) (m : ServicesManager)
    (urlParse : GoString → Except GoError URL) (u : URL) (bucket key : GoString) (ttl : Int)
    (hm : f.rtManager = some m)
    (hu : urlParse m.GetConfig.ServiceDetails.Url = .ok u) :
    (∃ cred, cred = firstNonEmpty [m.GetConfig.ServiceDetails.AccessToken,
        m.GetConfig.ServiceDetails.ApiKey, m.GetConfig.ServiceDetails.Password] ∧
      CreateSignedURL f urlParse bucket key ttl =
        .ok (lit "https://" ++ QueryEscape m.GetConfig.ServiceDetails.User ++ lit ":" ++
          QueryEscape cred ++ lit "@" ++ u.Host ++ u.Path ++ bucket ++ lit "/" ++ key) ∧
      (m.GetConfig.ServiceDetails.AccessToken ≠ [] →
        cred = m.GetConfig.ServiceDetails.AccessToken) ∧
      (m.GetConfig.ServiceDetails.AccessToken = [] →
        m.GetConfig.ServiceDetails.ApiKey ≠ [] → cred = m.GetConfig.ServiceDetails.ApiKey) ∧
      (m.GetConfig.ServiceDetails.AccessToken = [] →
        m.GetConfig.ServiceDetails.ApiKey = [] →
        cred = m.GetConfig.ServiceDetails.Password)) := by
  refine ⟨_, rfl, createSignedURL_eq f m urlParse u bucket key ttl hm hu, ?_, ?_, ?_⟩
  · intro h
    simp [firstNonEmpty, h]
  · intro h1 h2
    simp [firstNonEmpty, h1, h2]
  · intro h1 h2
    by_cases h3 : m.GetConfig.ServiceDetails.Password = []
    · simp [firstNonEmpty, h1, h2, h3]
    · simp [firstNonEmpty, h1, h2, h3]

/-- C2, with password `p` and API key `k` both set: the URL embeds `k`. -/
theorem CreateSignedURL_credential_witness :
    ∃ cred, cred = firstNonEmpty [[], lit "k", lit "p"] ∧
      CreateSignedURL (credStore (lit "https://h/") (lit "p") (lit "k") []) fixtureParse
          (lit "b") (lit "key") 0 =
        .ok (lit "https://" ++ QueryEscape (lit "u") ++ lit ":" ++
          QueryEscape cred ++ lit "@" ++ lit "h" ++ lit "/" ++ lit "b" ++ lit "/" ++ lit "key") ∧
      (([] : GoString) ≠ [] → cred = []) ∧
      (([] : GoString) = [] → lit "k" ≠ [] → cred = lit "k") ∧
      (([] : GoString) = [] → lit "k" = [] → cred = lit "p") :=
  CreateSignedURL_credential (credStore (lit "https://h/") (lit "p") (lit "k") [])
    (fakeManager (fixtureDetails (lit "https://h/") (lit "p") (lit "k") []) [])
    fixtureParse { Scheme := lit "https", Host := lit "h", Path := lit "/" }
    (lit "b") (lit "key") 0 rfl rfl

/-- C2 fails as stated. With password `p` and API key `k` both set, the specification's
order picks `p`, and `CreateSignedURL` returns `https://u:k@h/b/key`: it embeds the API
key. With password `p` and access token `t` it embeds `t`. -/
theorem CreateSignedURL_credential_counterexample :
    firstNonEmpty [lit "p", lit "k", []] = lit "p" ∧
    CreateSignedURL (credStore (lit "https://h/") (lit "p") (lit "k") []) fixtureParse
        (lit "b") (lit "key") 0 = .ok (lit "https://u:k@h/b/key") ∧
    lit "https://u:k@h/b/key" ≠ lit "https://u:p@h/b/key" ∧
    CreateSignedURL (credStore (lit "https://h/") (lit "p") [] (lit "t")) fixtureParse
        (lit "b") (lit "key") 0 = .ok (lit "https://u:t@h/b/key") := by
  decide

/-- C7, as the code has it. For every endpoint URL that parses to `u`, every user and
credential made only of unreserved URL characters, and every bucket and key,
`CreateSignedURL` returns exactly
`"https://" + user + ":" + credential + "@" + host + path + bucket + "/" + key`: the
scheme is always `https`, whatever the endpoint's scheme, and the bucket follows the
endpoint path directly, so that the bucket is a path segment of its own when the endpoint
path ends in `/`. -/
theorem CreateSignedURL_format (f : ObjectStore) (m : ServicesManager)
    (urlParse : GoString → Except GoError URL) (u : URL) (bucket key : GoString) (ttl : Int)
    (hm : f.rtManager = some m)
    (hu : urlParse m.GetConfig.ServiceDetails.Url = .ok u)
    (huser : ∀ c ∈ m.GetConfig.ServiceDetails.User, c ∈ unreservedChars)
    (hcred : ∀ c ∈ firstNonEmpty [m.GetConfig.ServiceDetails.AccessToken,
      m.GetConfig.ServiceDetails.ApiKey, m.GetConfig.ServiceDetails.Password],
      c ∈ unreservedChars) :
    CreateSignedURL f urlParse bucket key ttl =
      .ok (lit "https://" ++ m.GetConfig.ServiceDetails.User ++ lit ":" ++
        firstNonEmpty [m.GetConfig.ServiceDetails.AccessToken,
          m.GetConfig.ServiceDetails.ApiKey, m.GetConfig.ServiceDetails.Password] ++
        lit "@" ++ u.Host ++ u.Path ++ bucket ++ lit "/" ++ key) := by
  rw [createSignedURL_eq f m urlParse u bucket key ttl hm hu,
    queryEscape_unreserved _ huser, queryEscape_unreserved _ hcred]

/-- C7, at the endpoint `http://h/artifactory/`, user `u`, password `p`, bucket `b`, key
`k`: the URL is `https://u:p@h/artifactory/b/k`. -/
theorem CreateSignedURL_format_witness :
    CreateSignedURL (credStore (lit "http://h/artifactory/") (lit "p") [] []) fixtureParse
        (lit "b") (lit "k") 0 =
      .ok (lit "https://" ++ lit "u" ++ lit ":" ++ firstNonEmpty [[], [], lit "p"] ++
        lit "@" ++ lit "h" ++ lit "/artifactory/" ++ lit "b" ++ lit "/" ++ lit "k") :=
  CreateSignedURL_format (credStore (lit "http://h/artifactory/") (lit "p") [] [])
    (fakeManager (fixtureDetails (lit "http://h/artifactory/") (lit "p") [] []) [])
    fixtureParse { Scheme := lit "http", Host := lit "h", Path := lit "/artifactory/" }
    (lit "b") (lit "k") 0 rfl rfl (by decide) (by decide)

/-- C7 fails as stated. For the endpoint `http://h/artifactory/` the specification's form
is `http://u:p@h/artifactory//b/k` and `CreateSignedURL` returns
`https://u:p@h/artifactory/b/k`: the scheme is not the endpoint's. For the endpoint
`https://h/artifactory` the specification's form is `https://u:p@h/artifactory/b/k` and
`CreateSignedURL` returns `https://u:p@h/artifactoryb/k`: no `/` is put between the
endpoint path and the bucket. -/
theorem CreateSignedURL_format_counterexample :
    fixtureParse (lit "http://h/artifactory/") =
      .ok { Scheme := lit "http", Host := lit "h", Path := lit "/artifactory/" } ∧
    specSignedURL { Scheme := lit "http", Host := lit "h", Path := lit "/artifactory/" }
      (lit "u") (lit "p") (lit "b") (lit "k") = lit "http://u:p@h/artifactory//b/k" ∧
    CreateSignedURL (credStore (lit "http://h/artifactory/") (lit "p") [] []) fixtureParse
        (lit "b") (lit "k") 0 = .ok (lit "https://u:p@h/artifactory/b/k") ∧
    CreateSignedURL (credStore (lit "http://h/artifactory/") (lit "p") [] []) fixtureParse
        (lit "b") (lit "k") 0 ≠
      .ok (specSignedURL { Scheme := lit "http", Host := lit "h", Path := lit "/artifactory/" }
        (lit "u") (lit "p") (lit "b") (lit "k")) ∧
    fixtureParse (lit "https://h/artifactory") =
      .ok { Scheme := lit "https", Host := lit "h", Path := lit "/artifactory" } ∧
    specSignedURL { Scheme := lit "https", Host := lit "h", Path := lit "/artifactory" }
      (lit "u") (lit "p") (lit "b") (lit "k") = lit "https://u:p@h/artifactory/b/k" ∧
    CreateSignedURL (credStore (lit "https://h/artifactory") (lit "p") [] []) fixtureParse
        (lit "b") (lit "k") 0 = .ok (lit "https://u:p@h/artifactoryb/k") ∧
    CreateSignedURL (credStore (lit "https://h/artifactory") (lit "p") [] []) fixtureParse
        (lit "b") (lit "k") 0 ≠
      .ok (specSignedURL { Scheme := lit "https", Host := lit "h", Path := lit "/artifactory" }
        (lit "u") (lit "p") (lit "b") (lit "k")) := by
  refine ⟨rfl, by decide, by decide, by decide, rfl, by decide, by decide, by decide⟩

/-! ## The repository patterns -/

theorem dropWhile_snoc_of_pos (p : UInt8 → Bool) (x : UInt8) (hx : p x = true) :
    ∀ r : GoString, (r ++ [x]).dropWhile p =
      if r.dropWhile p = [] then [] else r.dropWhile p ++ [x] := by
  intro r
  induction r with
  | nil => simp [List.dropWhile, hx]
  | cons a r ih =>
    by_cases ha : p a = true
    · simp only [List.cons_append, List.dropWhile_cons, ha, if_true]
      exact ih
    · simp [List.dropWhile_cons, ha]

theorem trim_cons_slash (k : GoString) : Trim (lit "/" ++ k) (lit "/") = Trim k (lit "/") := by
  have hp : (fun c : UInt8 => decide (c ∈ lit "/")) 47 = true := by decide
  have hcons : lit "/" ++ k = 47 :: k := rfl
  unfold Trim TrimRight
  rw [hcons, List.reverse_cons, dropWhile_snoc_of_pos _ 47 hp]
  by_cases hnil : (k.reverse.dropWhile fun c => decide (c ∈ lit "/")) = []
  · rw [if_pos hnil, hnil]
  · rw [if_neg hnil, List.reverse_append]
    unfold TrimLeft
    rw [List.reverse_singleton, List.singleton_append, List.dropWhile_cons, if_pos hp]

theorem trim_snoc_slash (k : GoString) : Trim (k ++ lit "/") (lit "/") = Trim k (lit "/") := by
  have hp : (fun c : UInt8 => decide (c ∈ lit "/")) 47 = true := by decide
  have hsnoc : k ++ lit "/" = k ++ [47] := rfl
  unfold Trim TrimRight
  rw [hsnoc, List.reverse_append, List.reverse_singleton, List.singleton_append,
    List.dropWhile_cons, if_pos hp]

/-- The patterns of `GetObject` and `DeleteObject` are the same for the keys `k`,
`"/" + k` and `k + "/"`, for every bucket and key: both trim the key. -/
theorem download_delete_pattern_trimmed (f : ObjectStore) (bucket k : GoString) :
    (downloadParams f bucket (lit "/" ++ k)).Pattern = (downloadParams f bucket k).Pattern ∧
    (downloadParams f bucket (k ++ lit "/")).Pattern = (downloadParams f bucket k).Pattern ∧
    (deleteParams f bucket (lit "/" ++ k)).Pattern = (deleteParams f bucket k).Pattern ∧
    (deleteParams f bucket (k ++ lit "/")).Pattern = (deleteParams f bucket k).Pattern := by
  simp only [downloadParams, deleteParams, trim_cons_slash, trim_snoc_slash, and_self]

/-- C3 at the keys `a/b`, `a/b/` and `/a/b` of bucket `b`: `GetObject` and `DeleteObject`
build the pattern `b/a/b` for all three, `ObjectExists` builds `b/a/b`, `b/a/b/` and
`b//a/b`: it does not trim the key. -/
theorem ObjectExists_pattern_untrimmed :
    (downloadParams (fixtureStore []) (lit "b") (lit "a/b")).Pattern = lit "b/a/b" ∧
    (downloadParams (fixtureStore []) (lit "b") (lit "a/b/")).Pattern = lit "b/a/b" ∧
    (downloadParams (fixtureStore []) (lit "b") (lit "/a/b")).Pattern = lit "b/a/b" ∧
    (deleteParams (fixtureStore []) (lit "b") (lit "a/b")).Pattern = lit "b/a/b" ∧
    (deleteParams (fixtureStore []) (lit "b") (lit "a/b/")).Pattern = lit "b/a/b" ∧
    (deleteParams (fixtureStore []) (lit "b") (lit "/a/b")).Pattern = lit "b/a/b" ∧
    (existsParams (fixtureStore []) (lit "b") (lit "a/b")).Pattern = lit "b/a/b" ∧
    (existsParams (fixtureStore []) (lit "b") (lit "a/b/")).Pattern = lit "b/a/b/" ∧
    (existsParams (fixtureStore []) (lit "b") (lit "/a/b")).Pattern = lit "b//a/b" ∧
    ObjectExists (fixtureStore [item "b" "a" "b"]) (lit "b") (lit "a/b") = .ok true ∧
    ObjectExists (fixtureStore [item "b" "a" "b"]) (lit "b") (lit "a/b/") = .ok false := by
  decide

/-! ## The labels of `PutObject` -/

theorem index_some_occurs (sep s : GoString) (m : Nat) (h : Index s sep = some m) :
    sep <:+: s := by
  obtain ⟨_, ⟨rest, hrest⟩, _⟩ := index_some sep s m h
  exact ⟨s.take m, rest, hrest.symm⟩

theorem split_of_absent (s sep : GoString) (hsep : sep ≠ []) (h : ¬ sep <:+: s) :
    Split s sep = [s] := by
  unfold Split
  rw [if_neg hsep]
  cases hlen : s.length with
  | zero => rfl
  | succ n =>
    unfold genSplit
    cases hidx : Index s sep with
    | none => rfl
    | some m => exact absurd (index_some_occurs sep s m hidx) h

theorem addLabels_malformed : ∀ (labels : List GoString) (targetProps : Properties),
    (∃ label ∈ labels, ¬ lit "=" <:+: label) →
    ∃ p, addLabels labels targetProps = .error p := by
  intro labels
  induction labels with
  | nil =>
    intro _ h
    obtain ⟨label, hmem, _⟩ := h
    cases hmem
  | cons l ls ih =>
    intro targetProps h
    unfold addLabels
    cases hs : Split l (lit "=") with
    | nil => exact ⟨_, rfl⟩
    | cons k rest =>
      cases rest with
      | nil => exact ⟨_, rfl⟩
      | cons v rest2 =>
        simp only
        apply ih
        obtain ⟨label, hmem, hno⟩ := h
        rcases List.mem_cons.mp hmem with heq | hmem
        · subst heq
          have := split_of_absent label (lit "=") (by decide) hno
          rw [this] at hs
          simp at hs
        · exact ⟨label, hmem, hno⟩

/-- What `PutObject` does on malformed labels: for every non-empty label string in which
some `;`-separated entry contains no `=`, once the staging calls have succeeded,
`PutObject` panics; it returns neither an error nor normally. -/
theorem PutObject_malformed_labels (f : ObjectStore) (os : Staging)
    (bucket key body : GoString)
    (hmk : os.MkdirAll (Dir (Join [defaultRoot, bucket, key])) = none)
    (hcreate : os.Create (Join [defaultRoot, bucket, key]) = none)
    (hcopy : os.Copy (Join [defaultRoot, bucket, key]) body = none)
    (hne : f.labels ≠ [])
    (hbad : ∃ label ∈ Split f.labels (lit ";"), ¬ lit "=" <:+: label) :
    ∃ p, PutObject f os bucket key body = .panic p := by
  obtain ⟨p, hp⟩ := addLabels_malformed (Split f.labels (lit ";")) [] hbad
  refine ⟨p, ?_⟩
  unfold PutObject
  simp only [hmk, hcreate, hcopy, hp]
  rw [if_pos hne]

/-- C4 at the label strings `badpair` and `env=prod;badpair`, with the staging calls
succeeding: `PutObject` panics with an index out of range, where `env=prod;team=core`
uploads normally. -/
theorem PutObject_badpair_panics :
    PutObject (labelStore (lit "badpair")) okStaging (lit "b") (lit "k") (lit "data")
        = .panic (.indexOutOfRange 1 1) ∧
    PutObject (labelStore (lit "env=prod;badpair")) okStaging (lit "b") (lit "k") (lit "data")
        = .panic (.indexOutOfRange 1 1) ∧
    PutObject (labelStore (lit "env=prod;team=core")) okStaging (lit "b") (lit "k") (lit "data")
        = .ok () ∧
    addLabels (Split (lit "env=prod;team=core") (lit ";")) []
        = .ok [(lit "env", lit "prod"), (lit "team", lit "core")] := by
  refine ⟨by decide, by decide, by decide, rfl⟩

/-! ## `GetObject` after an empty download -/

/-- What `GetObject` does when nothing was downloaded: for every backend whose download
succeeds, reporting zero files, and leaves a file at the local path of `(bucket, key)`,
`GetObject` returns that file as the stream, without error. -/
theorem GetObject_zero_downloaded (f : ObjectStore) (m : ServicesManager)
    (fs fs1 : FileSystem) (bucket key content : GoString) (failed : Int)
    (hm : f.rtManager = some m)
    (hdl : m.DownloadFiles (downloadParams f bucket key) fs = (.ok (0, failed), fs1))
    (hfile : fs1.lookup (Join [defaultRoot, bucket, key]) = some content) :
    GetObject f fs bucket key = .ok content := by
  unfold GetObject
  simp only [hm, hdl]
  unfold osOpen
  simp only [hfile]

/-- C6 at bucket `b`, key `k`, a local file `/tmp/backups/b/k` left by an earlier call,
and a backend that downloads nothing and reports zero files: `GetObject` returns the
stale local file; only without the local file does it fail. -/
theorem GetObject_returns_stale_file :
    (fakeManager (fixtureDetails (lit "https://h/") [] [] []) []).DownloadFiles
        (downloadParams (fixtureStore []) (lit "b") (lit "k"))
        [(lit "/tmp/backups/b/k", lit "stale")]
      = (.ok (0, 0), [(lit "/tmp/backups/b/k", lit "stale")]) ∧
    GetObject (fixtureStore []) [(lit "/tmp/backups/b/k", lit "stale")] (lit "b") (lit "k")
      = .ok (lit "stale") ∧
    GetObject (fixtureStore []) [] (lit "b") (lit "k")
      = .error (.notExist (lit "/tmp/backups/b/k")) := by
  refine ⟨rfl, by decide, by decide⟩

/-! ## `ListObjects` -/

/-- The listing `ListObjects` returns is the listing of `ListCommonPrefixes` with the
delimiter `/`. -/
theorem ListObjects_eq (f : ObjectStore) (bucket pfx : GoString) :
    ListObjects f bucket pfx = ListCommonPrefixes f bucket pfx (lit "/") := by
  unfold ListObjects
  cases ListCommonPrefixes f bucket pfx (lit "/") <;> rfl

theorem objectOf_shape (bucket pfx delimiter : GoString) (r : ResultItem) (x : GoString)
    (h : objectOf bucket pfx delimiter r = .ok x) : ∃ d0, x = pfx ++ d0 ++ delimiter := by
  unfold objectOf at h
  simp only at h
  split at h
  · cases h
  · split at h
    · cases h
    · rename_i d0 ds hsplit
      simp only [Except.ok.injEq] at h
      exact ⟨d0, h.symm⟩

/-- Every string `ListObjects` returns is the given prefix, a piece of a key, and a
final `/`: the listing holds first segments closed by the delimiter, not keys. -/
theorem ListObjects_entries_end_in_slash (f : ObjectStore) (bucket pfx : GoString)
    (out : List GoString) (h : ListObjects f bucket pfx = .ok out) :
    ∀ x ∈ out, ∃ d0, x = pfx ++ d0 ++ lit "/" := by
  rw [ListObjects_eq] at h
  unfold ListCommonPrefixes at h
  cases hm : f.rtManager with
  | none => simp [hm] at h
  | some m =>
    simp only [hm] at h
    cases hsearch : m.SearchFiles (listParams f bucket pfx) with
    | error e => simp [hsearch] at h
    | ok reader =>
      simp only [hsearch] at h
      obtain ⟨cands, hc⟩ := listLoop_ok_candidates bucket pfx (lit "/") _ _ _ h
      obtain ⟨out2, hout2, _, hmem, _⟩ := listLoop_from_empty bucket pfx (lit "/") _ cands hc
      rw [h] at hout2
      cases hout2
      intro x hx
      obtain ⟨r, _, hr⟩ := (mem_candidates_iff bucket pfx (lit "/") _ cands hc x).mp
        ((hmem x).mp hx)
      exact objectOf_shape bucket pfx (lit "/") r x hr

/-- C10 at a bucket holding only `x/1/a`: `ListObjects(bucket, "")` returns `x/`, which
is not the key `x/1/a`; for the prefix `x/1/` it returns `x/1/a/`. -/
theorem ListObjects_returns_first_segments :
    ListObjects (fixtureStore [item "bkt" "x/1" "a"]) (lit "bkt") (lit "") = .ok [lit "x/"] ∧
    lit "x/1/a" ∉ [lit "x/"] ∧
    ListObjects (fixtureStore [item "bkt" "x/1" "a"]) (lit "bkt") (lit "x/1/")
      = .ok [lit "x/1/a/"] := by
  decide

end VeleroArtifactory
